import Mathlib

/-!
Verification of the binary cursor library (hazae41/cursor).

The cursor is a movable read/write head over a fixed byte buffer.  We embed
the class from `src/mods/cursor/cursor.ts` (first revision, the one using
`errors.ts`) together with the `src/mods/cursor/mod.ts` variant where the two
differ (the 24-bit accessors, `fill` vs `fillOrThrow`).

Modelling conventions:
* a `Uint8Array` is a `List Nat` whose elements are byte values; every store
  reduces the stored value `% 256`, as the typed array does;
* `offset` is a natural number (the operations only ever increase it or
  restore a previous value); `remaining` is computed in `Int`, like the
  JavaScript expression `length - offset`, so that states with
  `offset > length` behave as in the source;
* a JavaScript `undefined` produced by an out-of-bounds typed-array read is
  `Option.none`; a native `RangeError` thrown by `DataView`/`Buffer`
  accessors is `Option.none` on the result of the whole operation;
* operations that throw a classified cursor error before mutating anything
  are embedded as `Except CursorErr`, the error carrying the same data as
  the corresponding class of `errors.ts`.
-/

/-- Error taxonomy of `errors.ts` / `mod.ts`: the four error kinds, with the
data their constructors store (`cursorOffset`, `cursorLength`,
`bytesLength`). -/
inductive CursorErr where
  | readLengthOverflow (cursorOffset cursorLength bytesLength : Nat)
  | writeLengthOverflow (cursorOffset cursorLength bytesLength : Nat)
  | readNullOverflow (cursorOffset cursorLength : Nat)
  | readUnknown
  | writeUnknown
deriving DecidableEq

/-- The cursor: a byte buffer and a mutable offset. -/
structure Cursor where
  bytes : List Nat
  offset : Nat
deriving DecidableEq

/-- `Uint8Array.prototype.set(array, offset)`: overwrite `a.length` bytes of
`l` starting at `o` with the (byte-coerced) elements of `a`.  Only called by
the cursor after checking `o + a.length ≤ l.length`. -/
def setBytes (l : List Nat) (o : Nat) (a : List Nat) : List Nat :=
  l.take o ++ a.map (· % 256) ++ l.drop (o + a.length)

/-- `this.#bytes[i] = v`: a typed-array store, which coerces `v` to a byte
and is a silent no-op when `i` is out of bounds. -/
def storeByte (l : List Nat) (i : Nat) (v : Nat) : List Nat :=
  if i < l.length then l.set i (v % 256) else l

/-- Little-endian byte decomposition, least significant byte first. -/
def encodeLE : Nat → Nat → List Nat
  | 0, _ => []
  | k + 1, x => x % 256 :: encodeLE k (x / 256)

/-- Big-endian byte decomposition, most significant byte first. -/
def encodeBE (k x : Nat) : List Nat :=
  (encodeLE k x).reverse

/-- Value of a little-endian byte list. -/
def decodeLE : List Nat → Nat
  | [] => 0
  | b :: t => b + 256 * decodeLE t

/-- Value of a big-endian byte list. -/
def decodeBE (l : List Nat) : Nat :=
  decodeLE l.reverse

namespace Cursor

/-- `get length()`: total number of bytes. -/
def length (c : Cursor) : Nat := c.bytes.length

/-- `get remaining()`: `length - offset`, as the JavaScript number it is
(negative when `offset` has been pushed past the end). -/
def remaining (c : Cursor) : Int := (c.length : Int) - (c.offset : Int)

/-- `getOrThrow(length)`: bounds-checked window of `length` bytes at
`offset`.  The window is returned as the list of its bytes. -/
def getOrThrow (c : Cursor) (n : Nat) : Except CursorErr (List Nat) :=
  if c.remaining < (n : Int) then
    .error (.readLengthOverflow c.offset c.length n)
  else
    .ok ((c.bytes.drop c.offset).take n)

/-- `tryGet(length)`: same check and window as `getOrThrow`, returning a
`Result`. -/
def tryGet (c : Cursor) (n : Nat) : Except CursorErr (List Nat) :=
  if c.remaining < (n : Int) then
    .error (.readLengthOverflow c.offset c.length n)
  else
    .ok ((c.bytes.drop c.offset).take n)

/-- `readOrThrow(length)`: `getOrThrow`, then `offset += length`. -/
def readOrThrow (c : Cursor) (n : Nat) : Except CursorErr (List Nat × Cursor) :=
  (getOrThrow c n).map fun s => (s, { c with offset := c.offset + n })

/-- `tryRead(length)`: `tryGet(length).inspectSync(() => offset += length)`. -/
def tryRead (c : Cursor) (n : Nat) : Except CursorErr (List Nat × Cursor) :=
  (tryGet c n).map fun s => (s, { c with offset := c.offset + n })

/-- `setOrThrow(array)`: bounds-checked copy of `array` into the buffer at
`offset`; does not move `offset`. -/
def setOrThrow (c : Cursor) (a : List Nat) : Except CursorErr Cursor :=
  if c.remaining < (a.length : Int) then
    .error (.writeLengthOverflow c.offset c.length a.length)
  else
    .ok { c with bytes := setBytes c.bytes c.offset a }

/-- `trySet(array)`: same as `setOrThrow`, returning a `Result`. -/
def trySet (c : Cursor) (a : List Nat) : Except CursorErr Cursor :=
  if c.remaining < (a.length : Int) then
    .error (.writeLengthOverflow c.offset c.length a.length)
  else
    .ok { c with bytes := setBytes c.bytes c.offset a }

/-- `writeOrThrow(array)`: `setOrThrow`, then `offset += array.length`. -/
def writeOrThrow (c : Cursor) (a : List Nat) : Except CursorErr Cursor :=
  (setOrThrow c a).map fun c' => { c' with offset := c'.offset + a.length }

/-- `tryWrite(array)`: `trySet(array).inspectSync(() => offset += array.length)`. -/
def tryWrite (c : Cursor) (a : List Nat) : Except CursorErr Cursor :=
  (trySet c a).map fun c' => { c' with offset := c'.offset + a.length }

/-- `getUint8OrThrow()`: `this.bytes[this.offset]` — an unchecked typed-array
read, `undefined` (here `none`) when `offset` is out of bounds. -/
def getUint8OrThrow (c : Cursor) : Option Nat :=
  c.bytes[c.offset]?

/-- `tryGetUint8()`: `new Ok(this.bytes[this.offset])` — error type `never`. -/
def tryGetUint8 (c : Cursor) : Except CursorErr (Option Nat) :=
  .ok c.bytes[c.offset]?

/-- `readUint8OrThrow()`: `getUint8OrThrow`, then `offset++` — the offset
advances whether or not the read was in bounds. -/
def readUint8OrThrow (c : Cursor) : Option Nat × Cursor :=
  (getUint8OrThrow c, { c with offset := c.offset + 1 })

/-- `setUint8OrThrow(x)`: `this.bytes[this.offset] = x` — an unchecked
typed-array store, a silent no-op when `offset` is out of bounds. -/
def setUint8OrThrow (c : Cursor) (x : Nat) : Cursor :=
  { c with bytes := storeByte c.bytes c.offset x }

/-- `trySetUint8(x)`: the same store, wrapped in `Ok` — error type `never`. -/
def trySetUint8 (c : Cursor) (x : Nat) : Except CursorErr Cursor :=
  .ok { c with bytes := storeByte c.bytes c.offset x }

/-- `writeUint8OrThrow(x)`: `setUint8OrThrow`, then `offset++`. -/
def writeUint8OrThrow (c : Cursor) (x : Nat) : Cursor :=
  { setUint8OrThrow c x with offset := c.offset + 1 }

/-- `tryWriteUint8(x)`: `trySetUint8(x).inspectSync(() => offset++)` — the
result is always `Ok` and the offset always advances. -/
def tryWriteUint8 (c : Cursor) (x : Nat) : Except CursorErr Unit × Cursor :=
  (.ok (), writeUint8OrThrow c x)

end Cursor

/-! The `DataViews` adapter: a `DataView` over the same storage.  Its
accessors throw a native `RangeError` (here `none`) when the requested
window overruns the view, and otherwise decode/encode with the requested
endianness without any alignment requirement. -/
namespace Data

/-- `DataView.getUintN` at byte width `k`. -/
def getUint (bytes : List Nat) (o k : Nat) (le : Bool) : Option Nat :=
  if o + k ≤ bytes.length then
    some (if le then decodeLE ((bytes.drop o).take k) else decodeBE ((bytes.drop o).take k))
  else
    none

/-- `DataView.setUintN` at byte width `k`; the stored value is coerced
modulo `2 ^ (8 * k)`, which the byte decomposition performs by itself. -/
def setUint (bytes : List Nat) (o k x : Nat) (le : Bool) : Option (List Nat) :=
  if o + k ≤ bytes.length then
    some (setBytes bytes o (if le then encodeLE k x else encodeBE k x))
  else
    none

end Data

/-! The `Buffers` adapter: a Node `Buffer` over the same storage, used for
the 24-bit accessors of `cursor.ts`. -/
namespace Buffers

/-- `Buffer.prototype.readUIntBE(offset, k)`: big-endian unsigned read,
throwing (`none`) when the window overruns the buffer. -/
def readUIntBE (bytes : List Nat) (o k : Nat) : Option Nat :=
  if o + k ≤ bytes.length then some (decodeBE ((bytes.drop o).take k)) else none

/-- `Buffer.prototype.readUIntLE(offset, k)`. -/
def readUIntLE (bytes : List Nat) (o k : Nat) : Option Nat :=
  if o + k ≤ bytes.length then some (decodeLE ((bytes.drop o).take k)) else none

/-- `Buffer.prototype.writeUIntBE(value, offset, k)`: Node validates that
`value` fits in `k` bytes and that the window is in bounds, throwing a
`RangeError` (`none`) otherwise. -/
def writeUIntBE (bytes : List Nat) (x o k : Nat) : Option (List Nat) :=
  if x < 256 ^ k ∧ o + k ≤ bytes.length then some (setBytes bytes o (encodeBE k x)) else none

/-- `Buffer.prototype.writeUIntLE(value, offset, k)`. -/
def writeUIntLE (bytes : List Nat) (x o k : Nat) : Option (List Nat) :=
  if x < 256 ^ k ∧ o + k ≤ bytes.length then some (setBytes bytes o (encodeLE k x)) else none

end Buffers

/-- `ToUint32`: the unsigned 32-bit reduction JavaScript applies before a
bitwise operation. -/
def toUint32 (x : Nat) : Nat := x % 4294967296

/-- `ToInt32`: the signed 32-bit reinterpretation JavaScript applies to the
operands of `>>` and `&`. -/
def toInt32 (x : Nat) : Int :=
  if toUint32 x < 2147483648 then (toUint32 x : Int) else (toUint32 x : Int) - 4294967296

/-- `(x >> k) & 0xFF` in JavaScript: reinterpret `x` as a signed 32-bit
integer, arithmetic-shift right by `k` (floor division), and keep the low
byte of the two's-complement result. -/
def jsByte (x k : Nat) : Nat :=
  ((toInt32 x).fdiv ((2 : Int) ^ k) % 256).toNat

namespace Cursor

/-- `getUint16OrThrow(littleEndian?)`: `this.data.getUint16(this.offset, le)`. -/
def getUint16OrThrow (c : Cursor) (le : Bool) : Option Nat :=
  Data.getUint c.bytes c.offset 2 le

/-- `readUint16OrThrow`: get, then `offset += 2`. -/
def readUint16OrThrow (c : Cursor) (le : Bool) : Option (Nat × Cursor) :=
  (getUint16OrThrow c le).map fun x => (x, { c with offset := c.offset + 2 })

/-- `setUint16OrThrow(x, le)`: `this.data.setUint16(this.offset, x, le)`. -/
def setUint16OrThrow (c : Cursor) (x : Nat) (le : Bool) : Option Cursor :=
  (Data.setUint c.bytes c.offset 2 x le).map fun b => { c with bytes := b }

/-- `writeUint16OrThrow`: set, then `offset += 2`. -/
def writeUint16OrThrow (c : Cursor) (x : Nat) (le : Bool) : Option Cursor :=
  (setUint16OrThrow c x le).map fun c' => { c' with offset := c'.offset + 2 }

/-- `getUint24OrThrow(le)` of `cursor.ts`: `buffer.readUIntLE/BE(offset, 3)`. -/
def getUint24OrThrow (c : Cursor) (le : Bool) : Option Nat :=
  if le then Buffers.readUIntLE c.bytes c.offset 3 else Buffers.readUIntBE c.bytes c.offset 3

/-- `readUint24OrThrow` of `cursor.ts`: get, then `offset += 3`. -/
def readUint24OrThrow (c : Cursor) (le : Bool) : Option (Nat × Cursor) :=
  (getUint24OrThrow c le).map fun x => (x, { c with offset := c.offset + 3 })

/-- `setUint24OrThrow(x, le)` of `cursor.ts`:
`buffer.writeUIntLE/BE(x, offset, 3)` — rejects values outside
`[0, 2^24 - 1]` with a native range error. -/
def setUint24OrThrow (c : Cursor) (x : Nat) (le : Bool) : Option Cursor :=
  (if le then Buffers.writeUIntLE c.bytes x c.offset 3
   else Buffers.writeUIntBE c.bytes x c.offset 3).map fun b => { c with bytes := b }

/-- `writeUint24OrThrow` of `cursor.ts`: set, then `offset += 3`. -/
def writeUint24OrThrow (c : Cursor) (x : Nat) (le : Bool) : Option Cursor :=
  (setUint24OrThrow c x le).map fun c' => { c' with offset := c'.offset + 3 }

/-- `getUint32OrThrow(le)`: `this.data.getUint32(this.offset, le)`. -/
def getUint32OrThrow (c : Cursor) (le : Bool) : Option Nat :=
  Data.getUint c.bytes c.offset 4 le

/-- `readUint32OrThrow`: get, then `offset += 4`. -/
def readUint32OrThrow (c : Cursor) (le : Bool) : Option (Nat × Cursor) :=
  (getUint32OrThrow c le).map fun x => (x, { c with offset := c.offset + 4 })

/-- `setUint32OrThrow(x, le)`: `this.data.setUint32(this.offset, x, le)`. -/
def setUint32OrThrow (c : Cursor) (x : Nat) (le : Bool) : Option Cursor :=
  (Data.setUint c.bytes c.offset 4 x le).map fun b => { c with bytes := b }

/-- `writeUint32OrThrow`: set, then `offset += 4`. -/
def writeUint32OrThrow (c : Cursor) (x : Nat) (le : Bool) : Option Cursor :=
  (setUint32OrThrow c x le).map fun c' => { c' with offset := c'.offset + 4 }

/-- `getUint64OrThrow(le)`: `this.data.getBigUint64(this.offset, le)`; the
bigint value is a natural number below `2 ^ 64`. -/
def getUint64OrThrow (c : Cursor) (le : Bool) : Option Nat :=
  Data.getUint c.bytes c.offset 8 le

/-- `readUint64OrThrow`: get, then `offset += 8`. -/
def readUint64OrThrow (c : Cursor) (le : Bool) : Option (Nat × Cursor) :=
  (getUint64OrThrow c le).map fun x => (x, { c with offset := c.offset + 8 })

/-- `setUint64OrThrow(x, le)`: `this.data.setBigUint64(this.offset, x, le)`,
which reduces the bigint modulo `2 ^ 64`. -/
def setUint64OrThrow (c : Cursor) (x : Nat) (le : Bool) : Option Cursor :=
  (Data.setUint c.bytes c.offset 8 x le).map fun b => { c with bytes := b }

/-- `writeUint64OrThrow`: set, then `offset += 8`. -/
def writeUint64OrThrow (c : Cursor) (x : Nat) (le : Bool) : Option Cursor :=
  (setUint64OrThrow c x le).map fun c' => { c' with offset := c'.offset + 8 }

end Cursor

/-! The 24-bit accessors of `mod.ts`, which use explicit single-byte
typed-array operations instead of a Node `Buffer`. -/
namespace Cursor.Mod

/-- `getUint24OrThrow(le)` of `mod.ts`:
`(bytes[o] << 16) | (bytes[o+1] << 8) | bytes[o+2]` (big-endian case).  An
out-of-bounds read contributes `undefined`, which the shift coerces to `0`,
so each operand defaults to `0`; the bitwise or of the three disjoint byte
fields is their sum. -/
def getUint24OrThrow (c : Cursor) (le : Bool) : Nat :=
  if le then
    c.bytes.getD c.offset 0 + c.bytes.getD (c.offset + 1) 0 * 256
      + c.bytes.getD (c.offset + 2) 0 * 65536
  else
    c.bytes.getD c.offset 0 * 65536 + c.bytes.getD (c.offset + 1) 0 * 256
      + c.bytes.getD (c.offset + 2) 0

/-- `readUint24OrThrow` of `mod.ts`: get, then `offset += 3`. -/
def readUint24OrThrow (c : Cursor) (le : Bool) : Nat × Cursor :=
  (getUint24OrThrow c le, { c with offset := c.offset + 3 })

/-- `setUint24OrThrow(x, le)` of `mod.ts`: three unchecked typed-array
stores of `x & 0xFF`, `(x >> 8) & 0xFF`, `(x >> 16) & 0xFF` in the order
dictated by the endianness — no range validation of `x` at all. -/
def setUint24OrThrow (c : Cursor) (x : Nat) (le : Bool) : Cursor :=
  if le then
    { c with bytes :=
        storeByte (storeByte (storeByte c.bytes c.offset (jsByte x 0))
          (c.offset + 1) (jsByte x 8)) (c.offset + 2) (jsByte x 16) }
  else
    { c with bytes :=
        storeByte (storeByte (storeByte c.bytes c.offset (jsByte x 16))
          (c.offset + 1) (jsByte x 8)) (c.offset + 2) (jsByte x 0) }

/-- `writeUint24OrThrow` of `mod.ts`: set, then `offset += 3`. -/
def writeUint24OrThrow (c : Cursor) (x : Nat) (le : Bool) : Cursor :=
  { setUint24OrThrow c x le with offset := c.offset + 3 }

end Cursor.Mod

namespace Cursor

/-- The scan loop of `getNullOrThrow` / `tryGetNull`:
`while (i < bytes.length && bytes[i] > 0) i++`.  Returns the index where the
loop stops: the first position `≥ i` holding a zero byte, or the buffer
length when there is none. -/
def findNull (bytes : List Nat) (i : Nat) : Nat :=
  if h : i < bytes.length then
    if bytes.getD i 0 > 0 then findNull bytes (i + 1) else i
  else i
termination_by bytes.length - i
decreasing_by omega

/-- `getNullOrThrow()`: the absolute index of the first zero byte at or
after `offset`, failing with a null-overflow error when the scan reaches the
end of the buffer. -/
def getNullOrThrow (c : Cursor) : Except CursorErr Nat :=
  let i := findNull c.bytes c.offset
  if i = c.bytes.length then .error (.readNullOverflow c.offset c.length) else .ok i

/-- `tryGetNull()`: the same scan, returning a `Result`. -/
def tryGetNull (c : Cursor) : Except CursorErr Nat :=
  let i := findNull c.bytes c.offset
  if i = c.bytes.length then .error (.readNullOverflow c.offset c.length) else .ok i

/-- `getNulledOrThrow()`: `getOrThrow(getNullOrThrow())` — note that the
*absolute* index of the zero byte is passed to `getOrThrow` as a *length*. -/
def getNulledOrThrow (c : Cursor) : Except CursorErr (List Nat) :=
  (getNullOrThrow c).bind fun i => getOrThrow c i

/-- `readNulledOrThrow()`: `readOrThrow(getNullOrThrow())`. -/
def readNulledOrThrow (c : Cursor) : Except CursorErr (List Nat × Cursor) :=
  (getNullOrThrow c).bind fun i => readOrThrow c i

/-- `writeNulledOrThrow(array)`: `writeOrThrow(array)` then
`writeUint8OrThrow(0)`. -/
def writeNulledOrThrow (c : Cursor) (a : List Nat) : Except CursorErr Cursor :=
  (writeOrThrow c a).map fun c' => writeUint8OrThrow c' 0

/-- `tryWriteNulled(array)`: `tryWrite(array).andThenSync(() =>
tryWriteUint8(0))`; the pair carries the state after the call (unchanged on
failure, since `tryWrite` checks bounds before mutating). -/
def tryWriteNulled (c : Cursor) (a : List Nat) : Except CursorErr Unit × Cursor :=
  match tryWrite c a with
  | .error e => (.error e, c)
  | .ok c' => tryWriteUint8 c' 0

/-- `setNulledOrThrow(array)`: `try { writeNulledOrThrow(array) } finally
{ offset = start }`.  When `writeNulledOrThrow` throws, it has thrown before
mutating anything, so the `finally` block restores the offset on the
original state. -/
def setNulledOrThrow (c : Cursor) (a : List Nat) : Except CursorErr Unit × Cursor :=
  match writeNulledOrThrow c a with
  | .ok c' => (.ok (), { c' with offset := c.offset })
  | .error e => (.error e, { c with offset := c.offset })

/-- `trySetNulled(array)`: `tryWriteNulled(array)`, then unconditionally
`offset = start`, returning the inner result. -/
def trySetNulled (c : Cursor) (a : List Nat) : Except CursorErr Unit × Cursor :=
  let r := tryWriteNulled c a
  (r.1, { r.2 with offset := c.offset })

/-- `fill(value, length)` of `cursor.ts`:
`bytes.fill(value, offset, offset + length)` (which clamps both ends to the
buffer), then `offset += length` — no bounds check at all. -/
def fill (c : Cursor) (v n : Nat) : Cursor :=
  { bytes :=
      c.bytes.take (min c.offset c.bytes.length)
        ++ List.replicate (min (c.offset + n) c.bytes.length - min c.offset c.bytes.length) (v % 256)
        ++ c.bytes.drop (min (c.offset + n) c.bytes.length),
    offset := c.offset + n }

/-- `fillOrThrow(value, length)` of `mod.ts`: throw a write-length-overflow
when `remaining < length`, *before* performing the same fill-and-advance. -/
def fillOrThrow (c : Cursor) (v n : Nat) : Except CursorErr Cursor :=
  if c.remaining < (n : Int) then
    .error (.writeLengthOverflow c.offset c.length n)
  else
    .ok (fill c v n)

/-- One resumption of the `splitOrThrow(length)` / `trySplit(length)`
generator (their loop bodies perform the same reads): while
`remaining >= length` yield a full read of `length` bytes; once
`remaining < length`, yield one read of `remaining` bytes if `remaining` is
non-zero; then finish (`none`). -/
def splitStep (c : Cursor) (n : Nat) : Option (List Nat × Cursor) :=
  if (n : Int) ≤ c.remaining then
    match readOrThrow c n with
    | .ok p => some p
    | .error _ => none
  else if c.remaining ≠ 0 then
    match readOrThrow c c.remaining.toNat with
    | .ok p => some p
    | .error _ => none
  else none

/-- Run the split generator to completion with `fuel` resumptions: the list
of yielded chunks and the final cursor, or `none` when the generator does
not finish within `fuel` steps. -/
def splitRun : Nat → Cursor → Nat → Option (List (List Nat) × Cursor)
  | 0, _, _ => none
  | fuel + 1, c, n =>
    match splitStep c n with
    | none => some ([], c)
    | some (chunk, c') => (splitRun fuel c' n).map fun p => (chunk :: p.1, p.2)

/-- The split generator terminates: some finite amount of fuel completes it. -/
def SplitTerminates (c : Cursor) (n : Nat) : Prop :=
  ∃ fuel, splitRun fuel c n ≠ none

end Cursor

/-- The chunk sequence as the specification describes it: `⌊len / n⌋`
chunks of exactly `n` bytes in left-to-right order, followed by one short
chunk holding the `len % n` leftover bytes exactly when `len % n ≠ 0`. -/
def specChunks (l : List Nat) (n : Nat) : List (List Nat) :=
  (List.range (l.length / n)).map (fun i => (l.drop (i * n)).take n)
    ++ (if l.length % n = 0 then [] else [l.drop (l.length / n * n)])

/-! ### Basic facts about the byte-store helpers -/

lemma length_setBytes (l a : List Nat) (o : Nat) (h : o + a.length ≤ l.length) :
    (setBytes l o a).length = l.length := by
  simp only [setBytes, List.length_append, List.length_take, List.length_map, List.length_drop]
  omega

lemma setBytes_window (l a : List Nat) (o : Nat) (h : o + a.length ≤ l.length) :
    ((setBytes l o a).drop o).take a.length = a.map (· % 256) := by
  unfold setBytes
  rw [List.append_assoc, List.drop_left' (by simp; omega), List.take_left' (by simp)]

/-- Splitting `(t ++ m ++ dr)[j]?` by which of the three parts `j` lands in. -/
lemma getElem?_append3 (t m dr : List Nat) (j : Nat) :
    (t ++ m ++ dr)[j]? =
      if j < t.length then t[j]?
      else if j - t.length < m.length then m[j - t.length]?
      else dr[j - t.length - m.length]? := by
  rw [List.getElem?_append, List.getElem?_append]
  simp only [List.length_append]
  split_ifs with h1 h2 h3 h4 h5 <;> first
    | rfl
    | omega
    | (congr 1; omega)

lemma map_mod_of_bytes (a : List Nat) (h : ∀ b ∈ a, b < 256) : a.map (· % 256) = a := by
  induction a with
  | nil => rfl
  | cons b t ih =>
    have hb : b < 256 := h b (List.mem_cons_self b t)
    simp only [List.map_cons, Nat.mod_eq_of_lt hb, List.cons.injEq, true_and]
    exact ih fun x hx => h x (List.mem_cons_of_mem b hx)

lemma getD_storeByte_self (l : List Nat) (i v d : Nat) (h : i < l.length) :
    (storeByte l i v).getD i d = v % 256 := by
  simp [storeByte, h, List.getD, List.getElem?_set_self', h]

lemma getD_storeByte_ne (l : List Nat) (i j v d : Nat) (h : i ≠ j) :
    (storeByte l i v).getD j d = l.getD j d := by
  unfold storeByte
  split
  · simp [List.getD, List.getElem?_set_ne h]
  · rfl

lemma length_storeByte (l : List Nat) (i v : Nat) : (storeByte l i v).length = l.length := by
  unfold storeByte; split <;> simp

/-! ### Encoding and decoding fixed-width integers -/

lemma length_encodeLE (k x : Nat) : (encodeLE k x).length = k := by
  induction k generalizing x with
  | zero => rfl
  | succ k ih => simp [encodeLE, ih]

lemma length_encodeBE (k x : Nat) : (encodeBE k x).length = k := by
  simp [encodeBE, length_encodeLE]

lemma decodeLE_encodeLE (k x : Nat) : decodeLE (encodeLE k x) = x % 256 ^ k := by
  induction k generalizing x with
  | zero => simp [encodeLE, decodeLE, Nat.mod_one]
  | succ k ih =>
    simp only [encodeLE, decodeLE, ih, pow_succ]
    rw [Nat.mul_comm (256 ^ k) 256, Nat.mod_mul]

lemma decodeBE_encodeBE (k x : Nat) : decodeBE (encodeBE k x) = x % 256 ^ k := by
  simp [decodeBE, encodeBE, List.reverse_reverse, decodeLE_encodeLE]

lemma encodeLE_bytes (k x : Nat) : ∀ b ∈ encodeLE k x, b < 256 := by
  induction k generalizing x with
  | zero => simp [encodeLE]
  | succ k ih =>
    intro b hb
    simp only [encodeLE, List.mem_cons] at hb
    rcases hb with hb | hb
    · omega
    · exact ih (x / 256) b hb

lemma encodeBE_bytes (k x : Nat) : ∀ b ∈ encodeBE k x, b < 256 := by
  intro b hb
  exact encodeLE_bytes k x b (List.mem_reverse.mp hb)

/-! ### The JavaScript byte-extraction expression `(x >> k) & 0xFF` -/

lemma jsByte_zero (x : Nat) : jsByte x 0 = x % 256 := by
  unfold jsByte toInt32 toUint32
  rw [show ((2 : Int) ^ 0) = 1 by norm_num, Int.fdiv_eq_ediv _ (by omega)]
  split_ifs with h <;> omega

lemma jsByte_eight (x : Nat) : jsByte x 8 = x / 256 % 256 := by
  unfold jsByte toInt32 toUint32
  rw [show ((2 : Int) ^ 8) = 256 by norm_num, Int.fdiv_eq_ediv _ (by omega)]
  split_ifs with h <;> omega

lemma jsByte_sixteen (x : Nat) : jsByte x 16 = x / 65536 % 256 := by
  unfold jsByte toInt32 toUint32
  rw [show ((2 : Int) ^ 16) = 65536 by norm_num, Int.fdiv_eq_ediv _ (by omega)]
  split_ifs with h <;> omega

/-! ### Round trips through the multi-byte views -/

lemma setUint_getUint (bytes : List Nat) (o k x : Nat) (le : Bool) (h : o + k ≤ bytes.length) :
    Data.setUint bytes o k x le
        = some (setBytes bytes o (if le then encodeLE k x else encodeBE k x)) ∧
      Data.getUint (setBytes bytes o (if le then encodeLE k x else encodeBE k x)) o k le
        = some (x % 256 ^ k) := by
  set a : List Nat := if le then encodeLE k x else encodeBE k x with ha
  have hlen : a.length = k := by
    rw [ha]; cases le <;> simp [length_encodeLE, length_encodeBE]
  have hmap : a.map (· % 256) = a := by
    apply map_mod_of_bytes
    rw [ha]; cases le <;> simp only [if_true, if_false, Bool.false_eq_true]
    · exact encodeBE_bytes k x
    · exact encodeLE_bytes k x
  have hsb : o + a.length ≤ bytes.length := by omega
  constructor
  · simp [Data.setUint, h, ha]
  · have hlen2 : (setBytes bytes o a).length = bytes.length := length_setBytes _ _ _ hsb
    have hwin : ((setBytes bytes o a).drop o).take k = a := by
      rw [← hlen, setBytes_window _ _ _ hsb, hmap]
    simp only [Data.getUint, hlen2, h, if_true, hwin]
    rw [ha]
    cases le <;> simp [decodeLE_encodeLE, decodeBE_encodeBE]

/-- Reading back the three bytes stored by the `mod.ts` 24-bit writer yields
the low 24 bits of the written value, whatever the value was. -/
lemma mod24_store_getD (c : Cursor) (x : Nat) (le : Bool) (h : c.offset + 3 ≤ c.bytes.length) :
    Cursor.Mod.getUint24OrThrow
        ⟨(Cursor.Mod.setUint24OrThrow c x le).bytes, c.offset⟩ le = x % 16777216 := by
  have h0 : c.offset < c.bytes.length := by omega
  have h1 : c.offset + 1 < c.bytes.length := by omega
  have h2 : c.offset + 2 < c.bytes.length := by omega
  cases le with
  | false =>
    simp only [Cursor.Mod.setUint24OrThrow, Bool.false_eq_true, if_false,
      Cursor.Mod.getUint24OrThrow]
    rw [getD_storeByte_ne _ _ _ _ _ (by omega), getD_storeByte_ne _ _ _ _ _ (by omega),
      getD_storeByte_self _ _ _ _ h0,
      getD_storeByte_ne _ _ _ _ _ (by omega),
      getD_storeByte_self _ _ _ _ (by rwa [length_storeByte]),
      getD_storeByte_self _ _ _ _ (by rw [length_storeByte, length_storeByte]; exact h2)]
    rw [jsByte_zero, jsByte_eight, jsByte_sixteen]
    omega
  | true =>
    simp only [Cursor.Mod.setUint24OrThrow, if_true, Cursor.Mod.getUint24OrThrow]
    rw [getD_storeByte_ne _ _ _ _ _ (by omega), getD_storeByte_ne _ _ _ _ _ (by omega),
      getD_storeByte_self _ _ _ _ h0,
      getD_storeByte_ne _ _ _ _ _ (by omega),
      getD_storeByte_self _ _ _ _ (by rwa [length_storeByte]),
      getD_storeByte_self _ _ _ _ (by rw [length_storeByte, length_storeByte]; exact h2)]
    rw [jsByte_zero, jsByte_eight, jsByte_sixteen]
    omega

/-! ### The zero-byte scan -/

lemma findNull_stop (l : List Nat) (i : Nat) (h : i < l.length) (h0 : l.getD i 0 = 0) :
    Cursor.findNull l i = i := by
  unfold Cursor.findNull
  rw [List.getD_eq_getElem l 0 h] at h0
  simp [h, h0]

lemma findNull_step (l : List Nat) (i : Nat) (h : i < l.length) (h0 : 0 < l.getD i 0) :
    Cursor.findNull l i = Cursor.findNull l (i + 1) := by
  rw [Cursor.findNull]
  rw [List.getD_eq_getElem l 0 h] at h0
  simp [h, h0]

/-- Scanning a buffer made of a positive run `p` followed by a zero byte
stops exactly at `p.length`, from any start inside the run. -/
lemma findNull_pos_run (p rest : List Nat) (hp : ∀ b ∈ p, 0 < b) :
    ∀ d i, i ≤ p.length → p.length - i = d → Cursor.findNull (p ++ 0 :: rest) i = p.length := by
  intro d
  induction d with
  | zero =>
    intro i hi hd
    have hip : i = p.length := by omega
    subst hip
    apply findNull_stop
    · simp
    · rw [List.getD_eq_getElem _ 0 (by simp), List.getElem_append_right (by omega)]
      simp
  | succ d ih =>
    intro i hi hd
    have hip : i < p.length := by omega
    have hgd : (p ++ 0 :: rest).getD i 0 = p.getD i 0 := by
      simp [List.getD, List.getElem?_append, hip]
    have hpos : 0 < p.getD i 0 := by
      rw [List.getD_eq_getElem p 0 hip]
      exact hp _ (List.getElem_mem hip)
    rw [findNull_step _ _ (by simp; omega) (by rw [hgd]; exact hpos)]
    exact ih (i + 1) (by omega) (by omega)

/-! ### Chunked splitting -/

lemma specChunks_nil (n : Nat) (hn : 0 < n) : specChunks [] n = [] := by
  simp [specChunks, Nat.mod_self, Nat.zero_mod, Nat.div_eq_of_lt hn]

lemma specChunks_short (l : List Nat) (n : Nat) (h0 : l ≠ []) (h : l.length < n) :
    specChunks l n = [l] := by
  have hlen : 0 < l.length := List.length_pos.mpr h0
  simp only [specChunks, Nat.div_eq_of_lt h, Nat.mod_eq_of_lt h, List.range_zero,
    List.map_nil, List.nil_append, Nat.zero_mul, List.drop_zero]
  rw [if_neg (by omega)]

lemma specChunks_cons (l : List Nat) (n : Nat) (hn : 0 < n) (h : n ≤ l.length) :
    specChunks l n = l.take n :: specChunks (l.drop n) n := by
  obtain ⟨m, hm⟩ : ∃ m, l.length = m + n := ⟨l.length - n, by omega⟩
  have hdl : (l.drop n).length = m := by simp; omega
  simp only [specChunks, hm, hdl, Nat.add_div_right _ hn, Nat.add_mod_right]
  rw [List.range_succ_eq_map, List.map_cons, List.map_map]
  simp only [Nat.zero_mul, List.drop_zero]
  rw [List.cons_append]
  congr 1
  congr 1
  · apply List.map_congr_left
    intro i _
    simp only [Function.comp_apply, Nat.succ_eq_add_one]
    rw [List.drop_drop]
    congr 2
    ring
  · split_ifs with hz
    · rfl
    · congr 1
      rw [List.drop_drop]
      congr 1
      ring

lemma splitStep_full (c : Cursor) (n : Nat) (h : c.offset + n ≤ c.bytes.length) :
    Cursor.splitStep c n
      = some ((c.bytes.drop c.offset).take n, ⟨c.bytes, c.offset + n⟩) := by
  have hrem : (n : Int) ≤ c.remaining := by
    simp only [Cursor.remaining, Cursor.length]; omega
  have hok : Cursor.readOrThrow c n
      = .ok ((c.bytes.drop c.offset).take n, ⟨c.bytes, c.offset + n⟩) := by
    simp only [Cursor.readOrThrow, Cursor.getOrThrow, if_neg (Int.not_lt.mpr hrem)]
    rfl
  simp [Cursor.splitStep, hrem, hok]

lemma splitStep_done (c : Cursor) (n : Nat) (hn : 0 < n) (h : c.offset = c.bytes.length) :
    Cursor.splitStep c n = none := by
  have hrem : c.remaining = 0 := by
    simp only [Cursor.remaining, Cursor.length]; omega
  have h1 : ¬ ((n : Int) ≤ c.remaining) := by rw [hrem]; omega
  simp [Cursor.splitStep, h1, hrem]
  intro h2
  exfalso
  omega

lemma splitStep_short (c : Cursor) (n : Nat)
    (h0 : c.offset < c.bytes.length) (h : c.bytes.length - c.offset < n) :
    Cursor.splitStep c n = some (c.bytes.drop c.offset, ⟨c.bytes, c.bytes.length⟩) := by
  have hrem : c.remaining = ((c.bytes.length - c.offset : Nat) : Int) := by
    simp only [Cursor.remaining, Cursor.length]; omega
  have hlt : ¬ ((n : Int) ≤ c.remaining) := by rw [hrem]; omega
  have hne : c.remaining ≠ 0 := by rw [hrem]; omega
  have htn : c.remaining.toNat = c.bytes.length - c.offset := by rw [hrem]; simp
  have hoff : c.offset + (c.bytes.length - c.offset) = c.bytes.length := by omega
  have hok : Cursor.readOrThrow c (c.bytes.length - c.offset)
      = .ok (c.bytes.drop c.offset, ⟨c.bytes, c.bytes.length⟩) := by
    unfold Cursor.readOrThrow Cursor.getOrThrow
    rw [if_neg (by rw [hrem]; omega)]
    show Except.ok ((c.bytes.drop c.offset).take (c.bytes.length - c.offset),
        (⟨c.bytes, c.offset + (c.bytes.length - c.offset)⟩ : Cursor)) = _
    rw [List.take_of_length_le (by simp), hoff]
  rw [Cursor.splitStep, if_neg hlt, if_pos hne, htn, hok]

/-- Fully consuming the split generator with enough fuel yields exactly the
chunk sequence the specification describes and leaves the cursor at the end
of the buffer. -/
lemma splitRun_correct (r : Nat) :
    ∀ (c : Cursor) (n fuel : Nat), 0 < n → c.offset ≤ c.bytes.length →
      c.bytes.length - c.offset = r → r + 2 ≤ fuel →
      Cursor.splitRun fuel c n
        = some (specChunks (c.bytes.drop c.offset) n, ⟨c.bytes, c.bytes.length⟩) := by
  induction r using Nat.strong_induction_on with
  | _ r ih =>
    intro c n fuel hn hc hr hf
    obtain ⟨f, rfl⟩ : ∃ f, fuel = f + 1 := ⟨fuel - 1, by omega⟩
    rcases Nat.lt_or_ge r n with hshort | hfull
    · rcases Nat.eq_zero_or_pos r with hz | hpos
      · have hoff : c.offset = c.bytes.length := by omega
        rw [Cursor.splitRun, splitStep_done c n hn hoff]
        have hdrop : c.bytes.drop c.offset = [] := by
          apply List.drop_eq_nil_of_le
          omega
        rw [hdrop, specChunks_nil n hn]
        have : c = ⟨c.bytes, c.bytes.length⟩ := by
          cases c with
          | mk b o => simp_all
        rw [← this]
      · have hne : c.bytes.drop c.offset ≠ [] := by
          apply List.ne_nil_of_length_pos
          simp
          omega
        rw [Cursor.splitRun, splitStep_short c n (by omega) (by omega)]
        have hdone : Cursor.splitRun f ⟨c.bytes, c.bytes.length⟩ n = some ([], ⟨c.bytes, c.bytes.length⟩) := by
          obtain ⟨f2, rfl⟩ : ∃ f2, f = f2 + 1 := ⟨f - 1, by omega⟩
          rw [Cursor.splitRun, splitStep_done ⟨c.bytes, c.bytes.length⟩ n hn rfl]
        show Option.map (fun p => (c.bytes.drop c.offset :: p.1, p.2))
            (Cursor.splitRun f ⟨c.bytes, c.bytes.length⟩ n) = _
        rw [hdone, specChunks_short _ n hne (by simp; omega)]
        rfl
    · rw [Cursor.splitRun, splitStep_full c n (by omega)]
      have hrec : Cursor.splitRun f ⟨c.bytes, c.offset + n⟩ n
          = some (specChunks (c.bytes.drop (c.offset + n)) n, ⟨c.bytes, c.bytes.length⟩) := by
        exact ih (r - n) (by omega) ⟨c.bytes, c.offset + n⟩ n f hn (by simp; omega)
          (by simp; omega) (by omega)
      show Option.map (fun p => ((c.bytes.drop c.offset).take n :: p.1, p.2))
          (Cursor.splitRun f ⟨c.bytes, c.offset + n⟩ n) = _
      rw [hrec]
      have hchunks : specChunks (c.bytes.drop c.offset) n
          = (c.bytes.drop c.offset).take n :: specChunks (c.bytes.drop (c.offset + n)) n := by
        rw [specChunks_cons _ n hn (by simp; omega), List.drop_drop]
      rw [hchunks]
      rfl

/-- With chunk length `0` over a fully-consumed cursor the generator never
finishes: each resumption yields an empty chunk and leaves the state
untouched. -/
lemma splitRun_zero_none (fuel : Nat) : Cursor.splitRun fuel ⟨[], 0⟩ 0 = none := by
  induction fuel with
  | zero => rfl
  | succ f ih =>
    have hstep : Cursor.splitStep ⟨[], 0⟩ 0 = some ([], ⟨[], 0⟩) := by decide
    rw [Cursor.splitRun, hstep]
    show Option.map _ (Cursor.splitRun f ⟨[], 0⟩ 0) = none
    rw [ih]
    rfl

lemma length_fill (c : Cursor) (v n : Nat) : (c.fill v n).length = c.length := by
  simp only [Cursor.fill, Cursor.length, List.length_append, List.length_take,
    List.length_replicate, List.length_drop]
  omega

/-! ## The claims -/

/-- Claim C1 (amended): the invariant `0 ≤ offset ≤ length` is preserved by
the length-checked operations (`readOrThrow`, `writeOrThrow`,
`fillOrThrow`), which fail without moving `offset` whenever they would
overrun; but it is **not** maintained by the unchecked 8-bit accessors or by
the unchecked `fill` of `cursor.ts`: with `remaining = 0`,
`readUint8OrThrow` still advances and leaves `offset = length + 1`, and
`fill` advances `offset` by its length argument unconditionally, pushing it
past `length` whenever `remaining < n`. -/
theorem claim_C1_amended (c : Cursor) (_hc : c.offset ≤ c.length) (n : Nat) (a : List Nat)
    (v : Nat) :
    (∀ s c', c.readOrThrow n = .ok (s, c') → c'.offset ≤ c'.length) ∧
    (∀ c', c.writeOrThrow a = .ok c' → c'.offset ≤ c'.length) ∧
    (∀ c', c.fillOrThrow v n = .ok c' → c'.offset ≤ c'.length) ∧
    (c.remaining = 0 → (c.readUint8OrThrow).2.offset = c.length + 1) ∧
    ((c.fill v n).offset = c.offset + n ∧ (c.fill v n).length = c.length ∧
      (c.remaining < (n : Int) → c.length < (c.fill v n).offset)) := by
  refine ⟨?_, ?_, ?_, ?_, rfl, length_fill c v n, ?_⟩
  · intro s c' h
    unfold Cursor.readOrThrow Cursor.getOrThrow at h
    split at h
    · exact Except.noConfusion h
    · rename_i hrem
      simp only [Except.map, Except.ok.injEq, Prod.mk.injEq] at h
      obtain ⟨-, rfl⟩ := h
      simp only [Cursor.remaining, Cursor.length, not_lt] at hrem ⊢
      omega
  · intro c' h
    unfold Cursor.writeOrThrow Cursor.setOrThrow at h
    split at h
    · exact Except.noConfusion h
    · rename_i hrem
      simp only [Except.map, Except.ok.injEq] at h
      subst h
      simp only [Cursor.remaining, Cursor.length, not_lt] at hrem ⊢
      rw [length_setBytes _ _ _ (by omega)]
      omega
  · intro c' h
    unfold Cursor.fillOrThrow at h
    split at h
    · exact Except.noConfusion h
    · rename_i hrem
      simp only [Except.ok.injEq] at h
      subst h
      simp only [Cursor.remaining, Cursor.length, not_lt] at hrem
      rw [length_fill]
      simp only [Cursor.fill, Cursor.length] at *
      omega
  · intro h0
    simp only [Cursor.remaining, Cursor.length] at h0
    simp only [Cursor.readUint8OrThrow, Cursor.length]
    omega
  · intro hlt
    simp only [Cursor.remaining, Cursor.length] at hlt
    simp only [Cursor.fill, Cursor.length]
    omega

/-- Claim C1 is refuted as stated: on the empty cursor (offset 0, length 0,
so `remaining = 0`), the public operation `readUint8OrThrow` does not fail —
it leaves `offset = 1 > length`, breaking `0 ≤ offset ≤ length`. -/
theorem claim_C1_counterexample :
    (Cursor.readUint8OrThrow ⟨[], 0⟩).2.offset = 1 ∧
    ¬ ((Cursor.readUint8OrThrow ⟨[], 0⟩).2.offset
        ≤ (Cursor.readUint8OrThrow ⟨[], 0⟩).2.length) := by
  decide

/-- Witness for C1 (amended) at a concrete cursor. -/
theorem claim_C1_witness :
    (⟨[0, 0], 1⟩ : Cursor).offset ≤ (⟨[0, 0], 1⟩ : Cursor).length ∧
    (Cursor.fill ⟨[0, 0], 0⟩ 3 1).offset = 0 + 1 :=
  ⟨(claim_C1_amended ⟨[0, 0], 0⟩ (by decide) 1 [7] 3).1 [0] ⟨[0, 0], 1⟩ rfl,
   (claim_C1_amended ⟨[0, 0], 0⟩ (by decide) 1 [7] 3).2.2.2.2.1⟩

/-- Storing at an index the value it already holds leaves the list as it was. -/
lemma set_eq_of_getElem? (l : List Nat) (i v : Nat) (h : l[i]? = some v) : l.set i v = l := by
  induction l generalizing i with
  | nil => simp at h
  | cons b t ih =>
    cases i with
    | zero =>
      simp only [List.getElem?_cons_zero, Option.some.injEq] at h
      simp [h]
    | succ j =>
      simp only [List.getElem?_cons_succ] at h
      show b :: t.set j v = b :: t
      rw [ih j h]

/-- Claim C2 (amended): `getNullOrThrow` returns the *absolute* index of the
first zero byte, and `getNulledOrThrow` / `readNulledOrThrow` pass that
index to `getOrThrow` / `readOrThrow` as a byte count, so only from
`offset = 0` do they return exactly the payload before the first zero; the
read variant advances `offset` by that index only, leaving the zero
terminator *unconsumed*: after `writeNulledOrThrow` of a positive payload
`p` on a fresh zeroed buffer (which consumes `p.length + 1` bytes) and a
rewind, `readNulledOrThrow` returns `p` and advances `offset` by exactly
`p.length` — not `p.length + 1`. -/
theorem claim_C2_amended (p : List Nat) (len : Nat)
    (hp : ∀ b ∈ p, 0 < b ∧ b < 256) (hl : p.length + 1 ≤ len) :
    Cursor.writeNulledOrThrow ⟨List.replicate len 0, 0⟩ p
      = .ok ⟨p ++ List.replicate (len - p.length) 0, p.length + 1⟩ ∧
    Cursor.getNulledOrThrow ⟨p ++ List.replicate (len - p.length) 0, 0⟩ = .ok p ∧
    Cursor.readNulledOrThrow ⟨p ++ List.replicate (len - p.length) 0, 0⟩
      = .ok (p, ⟨p ++ List.replicate (len - p.length) 0, p.length⟩) := by
  have hp1 : ∀ b ∈ p, 0 < b := fun b hb => (hp b hb).1
  have hp2 : ∀ b ∈ p, b < 256 := fun b hb => (hp b hb).2
  have hsplit : p ++ List.replicate (len - p.length) 0
      = p ++ 0 :: List.replicate (len - p.length - 1) 0 := by
    congr 1
    conv_lhs => rw [show len - p.length = (len - p.length - 1) + 1 from by omega]
    rw [List.replicate_succ]
  have hlen2 : (p ++ List.replicate (len - p.length) 0).length = len := by simp; omega
  have hbytes : setBytes (List.replicate len 0) 0 p
      = p ++ List.replicate (len - p.length) 0 := by
    unfold setBytes
    rw [map_mod_of_bytes p hp2]
    simp [List.drop_replicate]
  have h1 : Cursor.writeOrThrow ⟨List.replicate len 0, 0⟩ p
      = .ok ⟨p ++ List.replicate (len - p.length) 0, p.length⟩ := by
    unfold Cursor.writeOrThrow Cursor.setOrThrow
    rw [if_neg (by
      simp only [Cursor.remaining, Cursor.length, List.length_replicate, not_lt]
      omega)]
    show Except.ok (⟨setBytes (List.replicate len 0) 0 p, 0 + p.length⟩ : Cursor) = _
    rw [hbytes]
    norm_num
  have hstore : storeByte (p ++ List.replicate (len - p.length) 0) p.length 0
      = p ++ List.replicate (len - p.length) 0 := by
    unfold storeByte
    rw [if_pos (by rw [hlen2]; omega)]
    apply set_eq_of_getElem?
    rw [hsplit, List.getElem?_append]
    simp
  have hfind : Cursor.findNull (p ++ List.replicate (len - p.length) 0) 0 = p.length := by
    rw [hsplit]
    exact findNull_pos_run p _ hp1 p.length 0 (by omega) (by omega)
  have hnull : Cursor.getNullOrThrow ⟨p ++ List.replicate (len - p.length) 0, 0⟩
      = .ok p.length := by
    unfold Cursor.getNullOrThrow
    simp only [hfind, hlen2]
    rw [if_neg (by omega)]
  have hget : Cursor.getOrThrow ⟨p ++ List.replicate (len - p.length) 0, 0⟩ p.length
      = .ok p := by
    unfold Cursor.getOrThrow
    rw [if_neg (by
      simp only [Cursor.remaining, Cursor.length, hlen2, not_lt]
      omega)]
    simp only [List.drop_zero]
    rw [List.take_left]
  refine ⟨?_, ?_, ?_⟩
  · unfold Cursor.writeNulledOrThrow
    rw [h1]
    show Except.ok (Cursor.writeUint8OrThrow ⟨p ++ List.replicate (len - p.length) 0, p.length⟩ 0)
        = _
    unfold Cursor.writeUint8OrThrow Cursor.setUint8OrThrow
    show Except.ok (⟨storeByte (p ++ List.replicate (len - p.length) 0) p.length 0,
        p.length + 1⟩ : Cursor) = _
    rw [hstore]
  · unfold Cursor.getNulledOrThrow
    rw [hnull]
    exact hget
  · unfold Cursor.readNulledOrThrow
    rw [hnull]
    show Cursor.readOrThrow ⟨p ++ List.replicate (len - p.length) 0, 0⟩ p.length = _
    unfold Cursor.readOrThrow
    rw [hget]
    show Except.ok (p, (⟨p ++ List.replicate (len - p.length) 0, 0 + p.length⟩ : Cursor)) = _
    norm_num

/-- Claim C2 is refuted as stated: after `writeNulledOrThrow [1,2,3]` on a
fresh 4-byte buffer and a rewind to offset 0, `readNulledOrThrow` returns
`[1,2,3]` but advances `offset` by 3 — to the terminator, not past it — so
it does not consume payload plus terminator (4 bytes) as claimed. -/
theorem claim_C2_counterexample :
    Cursor.writeNulledOrThrow ⟨List.replicate 4 0, 0⟩ [1, 2, 3]
      = .ok ⟨[1, 2, 3, 0], 4⟩ ∧
    Cursor.readNulledOrThrow ⟨[1, 2, 3, 0], 0⟩ = .ok ([1, 2, 3], ⟨[1, 2, 3, 0], 3⟩) ∧
    (⟨[1, 2, 3, 0], 3⟩ : Cursor).offset ≠ 0 + 4 := by
  have h := claim_C2_amended [1, 2, 3] 4 (by decide) (by decide)
  refine ⟨h.1, h.2.2, by decide⟩

/-- Witness for C2 (amended) at the payload `[1,2,3]` in a 4-byte buffer. -/
theorem claim_C2_witness :
    Cursor.getNulledOrThrow ⟨[1, 2, 3] ++ List.replicate (4 - 3) 0, 0⟩ = .ok [1, 2, 3] :=
  (claim_C2_amended [1, 2, 3] 4 (by decide) (by decide)).2.1

lemma buffers_roundtrip (bytes : List Nat) (o k x : Nat) (hx : x < 256 ^ k)
    (h : o + k ≤ bytes.length) :
    Buffers.writeUIntBE bytes x o k = some (setBytes bytes o (encodeBE k x)) ∧
    Buffers.readUIntBE (setBytes bytes o (encodeBE k x)) o k = some x ∧
    Buffers.writeUIntLE bytes x o k = some (setBytes bytes o (encodeLE k x)) ∧
    Buffers.readUIntLE (setBytes bytes o (encodeLE k x)) o k = some x := by
  have hsbBE : o + (encodeBE k x).length ≤ bytes.length := by rw [length_encodeBE]; omega
  have hsbLE : o + (encodeLE k x).length ≤ bytes.length := by rw [length_encodeLE]; omega
  have hwinBE : ((setBytes bytes o (encodeBE k x)).drop o).take k = encodeBE k x := by
    set e := encodeBE k x with he
    have hl : e.length = k := by rw [he, length_encodeBE]
    rw [← hl, setBytes_window _ _ _ (by omega), map_mod_of_bytes _ (by rw [he]; exact encodeBE_bytes k x)]
  have hwinLE : ((setBytes bytes o (encodeLE k x)).drop o).take k = encodeLE k x := by
    set e := encodeLE k x with he
    have hl : e.length = k := by rw [he, length_encodeLE]
    rw [← hl, setBytes_window _ _ _ (by omega), map_mod_of_bytes _ (by rw [he]; exact encodeLE_bytes k x)]
  refine ⟨?_, ?_, ?_, ?_⟩
  · simp [Buffers.writeUIntBE, hx, h]
  · simp only [Buffers.readUIntBE, length_setBytes _ _ _ hsbBE, h, if_true, hwinBE,
      decodeBE_encodeBE]
    rw [Nat.mod_eq_of_lt hx]
  · simp [Buffers.writeUIntLE, hx, h]
  · simp only [Buffers.readUIntLE, length_setBytes _ _ _ hsbLE, h, if_true, hwinLE,
      decodeLE_encodeLE]
    rw [Nat.mod_eq_of_lt hx]

lemma dataview_cursor_roundtrip (c : Cursor) (k v : Nat) (le : Bool) (hv : v < 256 ^ k)
    (h : c.offset + k ≤ c.bytes.length) :
    Data.setUint c.bytes c.offset k v le
        = some (setBytes c.bytes c.offset (if le then encodeLE k v else encodeBE k v)) ∧
    Data.getUint (setBytes c.bytes c.offset (if le then encodeLE k v else encodeBE k v))
        c.offset k le = some v := by
  obtain ⟨h1, h2⟩ := setUint_getUint c.bytes c.offset k v le h
  exact ⟨h1, by rw [h2, Nat.mod_eq_of_lt hv]⟩

/-- Claim C3: for every width `W ∈ {8, 16, 24, 32, 64}`, endianness `E`,
value `v < 2 ^ W` and cursor with `remaining ≥ W / 8`, writing `v` and then
re-reading from the pre-write offset returns `v`, with `offset` advancing by
exactly `W / 8` bytes on the write and again on the read.  The 24-bit width
is verified for both implementations: the `Buffer`-backed one of
`cursor.ts` and the byte-wise one of `mod.ts`. -/
theorem claim_C3_roundtrip (c : Cursor) (le : Bool) (v : Nat) :
    (v < 2 ^ 8 → (1 : Int) ≤ c.remaining →
      (Cursor.writeUint8OrThrow c v).offset = c.offset + 1 ∧
      Cursor.readUint8OrThrow ⟨(Cursor.writeUint8OrThrow c v).bytes, c.offset⟩
        = (some v, ⟨(Cursor.writeUint8OrThrow c v).bytes, c.offset + 1⟩)) ∧
    (v < 2 ^ 16 → (2 : Int) ≤ c.remaining →
      Cursor.writeUint16OrThrow c v le
        = some ⟨setBytes c.bytes c.offset (if le then encodeLE 2 v else encodeBE 2 v),
            c.offset + 2⟩ ∧
      Cursor.readUint16OrThrow
          ⟨setBytes c.bytes c.offset (if le then encodeLE 2 v else encodeBE 2 v), c.offset⟩ le
        = some (v, ⟨setBytes c.bytes c.offset (if le then encodeLE 2 v else encodeBE 2 v),
            c.offset + 2⟩)) ∧
    (v < 2 ^ 24 → (3 : Int) ≤ c.remaining →
      Cursor.writeUint24OrThrow c v le
        = some ⟨setBytes c.bytes c.offset (if le then encodeLE 3 v else encodeBE 3 v),
            c.offset + 3⟩ ∧
      Cursor.readUint24OrThrow
          ⟨setBytes c.bytes c.offset (if le then encodeLE 3 v else encodeBE 3 v), c.offset⟩ le
        = some (v, ⟨setBytes c.bytes c.offset (if le then encodeLE 3 v else encodeBE 3 v),
            c.offset + 3⟩)) ∧
    (v < 2 ^ 24 → (3 : Int) ≤ c.remaining →
      (Cursor.Mod.writeUint24OrThrow c v le).offset = c.offset + 3 ∧
      Cursor.Mod.readUint24OrThrow ⟨(Cursor.Mod.writeUint24OrThrow c v le).bytes, c.offset⟩ le
        = (v, ⟨(Cursor.Mod.writeUint24OrThrow c v le).bytes, c.offset + 3⟩)) ∧
    (v < 2 ^ 32 → (4 : Int) ≤ c.remaining →
      Cursor.writeUint32OrThrow c v le
        = some ⟨setBytes c.bytes c.offset (if le then encodeLE 4 v else encodeBE 4 v),
            c.offset + 4⟩ ∧
      Cursor.readUint32OrThrow
          ⟨setBytes c.bytes c.offset (if le then encodeLE 4 v else encodeBE 4 v), c.offset⟩ le
        = some (v, ⟨setBytes c.bytes c.offset (if le then encodeLE 4 v else encodeBE 4 v),
            c.offset + 4⟩)) ∧
    (v < 2 ^ 64 → (8 : Int) ≤ c.remaining →
      Cursor.writeUint64OrThrow c v le
        = some ⟨setBytes c.bytes c.offset (if le then encodeLE 8 v else encodeBE 8 v),
            c.offset + 8⟩ ∧
      Cursor.readUint64OrThrow
          ⟨setBytes c.bytes c.offset (if le then encodeLE 8 v else encodeBE 8 v), c.offset⟩ le
        = some (v, ⟨setBytes c.bytes c.offset (if le then encodeLE 8 v else encodeBE 8 v),
            c.offset + 8⟩)) := by
  refine ⟨?_, ?_, ?_, ?_, ?_, ?_⟩
  · intro hv hrem
    have h1 : c.offset < c.bytes.length := by
      simp only [Cursor.remaining, Cursor.length] at hrem; omega
    have hsv : (storeByte c.bytes c.offset v)[c.offset]? = some v := by
      unfold storeByte
      rw [if_pos h1]
      simp [List.getElem?_set_self', h1, Nat.mod_eq_of_lt (by omega : v < 256)]
    refine ⟨rfl, ?_⟩
    show ((storeByte c.bytes c.offset v)[c.offset]?,
        (⟨storeByte c.bytes c.offset v, c.offset + 1⟩ : Cursor)) = _
    rw [hsv]
    rfl
  · intro hv hrem
    have hk : c.offset + 2 ≤ c.bytes.length := by
      simp only [Cursor.remaining, Cursor.length] at hrem; omega
    have hv2 : v < 256 ^ 2 := by norm_num; omega
    obtain ⟨hset, hget⟩ := dataview_cursor_roundtrip c 2 v le hv2 hk
    constructor
    · unfold Cursor.writeUint16OrThrow Cursor.setUint16OrThrow
      rw [hset]
      rfl
    · show (Data.getUint (setBytes c.bytes c.offset
            (if le then encodeLE 2 v else encodeBE 2 v)) c.offset 2 le).map
          (fun x => (x, (⟨setBytes c.bytes c.offset
            (if le then encodeLE 2 v else encodeBE 2 v), c.offset + 2⟩ : Cursor))) = _
      rw [hget]
      rfl
  · intro hv hrem
    have hk : c.offset + 3 ≤ c.bytes.length := by
      simp only [Cursor.remaining, Cursor.length] at hrem; omega
    have hv3 : v < 256 ^ 3 := by norm_num; omega
    obtain ⟨hwBE, hrBE, hwLE, hrLE⟩ := buffers_roundtrip c.bytes c.offset 3 v hv3 hk
    cases le with
    | false =>
      constructor
      · unfold Cursor.writeUint24OrThrow Cursor.setUint24OrThrow
        simp only [Bool.false_eq_true, if_false]
        rw [hwBE]
        rfl
      · show (Buffers.readUIntBE (setBytes c.bytes c.offset (encodeBE 3 v))
            c.offset 3).map (fun x => (x, (⟨setBytes c.bytes c.offset (encodeBE 3 v),
              c.offset + 3⟩ : Cursor))) = _
        rw [hrBE]
        rfl
    | true =>
      constructor
      · unfold Cursor.writeUint24OrThrow Cursor.setUint24OrThrow
        simp only [if_true]
        rw [hwLE]
        rfl
      · show (Buffers.readUIntLE (setBytes c.bytes c.offset (encodeLE 3 v))
            c.offset 3).map (fun x => (x, (⟨setBytes c.bytes c.offset (encodeLE 3 v),
              c.offset + 3⟩ : Cursor))) = _
        rw [hrLE]
        rfl
  · intro hv hrem
    have hk : c.offset + 3 ≤ c.bytes.length := by
      simp only [Cursor.remaining, Cursor.length] at hrem; omega
    refine ⟨rfl, ?_⟩
    show (Cursor.Mod.getUint24OrThrow
          ⟨(Cursor.Mod.setUint24OrThrow c v le).bytes, c.offset⟩ le,
        (⟨(Cursor.Mod.setUint24OrThrow c v le).bytes, c.offset + 3⟩ : Cursor))
      = (v, ⟨(Cursor.Mod.setUint24OrThrow c v le).bytes, c.offset + 3⟩)
    rw [mod24_store_getD c v le hk, Nat.mod_eq_of_lt (by omega : v < 16777216)]
  · intro hv hrem
    have hk : c.offset + 4 ≤ c.bytes.length := by
      simp only [Cursor.remaining, Cursor.length] at hrem; omega
    have hv4 : v < 256 ^ 4 := by norm_num; omega
    obtain ⟨hset, hget⟩ := dataview_cursor_roundtrip c 4 v le hv4 hk
    constructor
    · unfold Cursor.writeUint32OrThrow Cursor.setUint32OrThrow
      rw [hset]
      rfl
    · show (Data.getUint (setBytes c.bytes c.offset
            (if le then encodeLE 4 v else encodeBE 4 v)) c.offset 4 le).map
          (fun x => (x, (⟨setBytes c.bytes c.offset
            (if le then encodeLE 4 v else encodeBE 4 v), c.offset + 4⟩ : Cursor))) = _
      rw [hget]
      rfl
  · intro hv hrem
    have hk : c.offset + 8 ≤ c.bytes.length := by
      simp only [Cursor.remaining, Cursor.length] at hrem; omega
    have hv8 : v < 256 ^ 8 := by norm_num; omega
    obtain ⟨hset, hget⟩ := dataview_cursor_roundtrip c 8 v le hv8 hk
    constructor
    · unfold Cursor.writeUint64OrThrow Cursor.setUint64OrThrow
      rw [hset]
      rfl
    · show (Data.getUint (setBytes c.bytes c.offset
            (if le then encodeLE 8 v else encodeBE 8 v)) c.offset 8 le).map
          (fun x => (x, (⟨setBytes c.bytes c.offset
            (if le then encodeLE 8 v else encodeBE 8 v), c.offset + 8⟩ : Cursor))) = _
      rw [hget]
      rfl

/-- Witness for C3 at a concrete 8-byte cursor, value 123, little-endian. -/
theorem claim_C3_witness :
    (Cursor.writeUint8OrThrow ⟨List.replicate 8 0, 0⟩ 123).offset = 0 + 1 ∧
    Cursor.readUint16OrThrow
        ⟨setBytes (List.replicate 8 0) 0 (encodeLE 2 123), 0⟩ true
      = some (123, ⟨setBytes (List.replicate 8 0) 0 (encodeLE 2 123), 0 + 2⟩) ∧
    Cursor.Mod.readUint24OrThrow
        ⟨(Cursor.Mod.writeUint24OrThrow ⟨List.replicate 8 0, 0⟩ 123 true).bytes, 0⟩ true
      = (123, ⟨(Cursor.Mod.writeUint24OrThrow ⟨List.replicate 8 0, 0⟩ 123 true).bytes,
          0 + 3⟩) :=
  ⟨((claim_C3_roundtrip ⟨List.replicate 8 0, 0⟩ true 123).1 (by decide) (by decide)).1,
   ((claim_C3_roundtrip ⟨List.replicate 8 0, 0⟩ true 123).2.1 (by decide) (by decide)).2,
   ((claim_C3_roundtrip ⟨List.replicate 8 0, 0⟩ true 123).2.2.2.1 (by decide) (by decide)).2⟩

/-- Claim C4: the raw byte operations fail with a length-overflow error
exactly when `remaining < n` (respectively `remaining < array.length`), in
both their throwing and `Result` forms; on failure nothing is mutated (in
this embedding a failing operation returns only the error), and on a fresh
buffer of size `n`, writing / reading exactly `n` bytes succeeds and leaves
`offset = n`. -/
theorem claim_C4_length_checks (c : Cursor) (n : Nat) (a : List Nat) :
    (c.remaining < (n : Int) →
      c.getOrThrow n = .error (.readLengthOverflow c.offset c.length n) ∧
      c.tryGet n = .error (.readLengthOverflow c.offset c.length n) ∧
      c.readOrThrow n = .error (.readLengthOverflow c.offset c.length n) ∧
      c.tryRead n = .error (.readLengthOverflow c.offset c.length n)) ∧
    ((n : Int) ≤ c.remaining →
      c.getOrThrow n = .ok ((c.bytes.drop c.offset).take n) ∧
      c.readOrThrow n = .ok ((c.bytes.drop c.offset).take n, ⟨c.bytes, c.offset + n⟩) ∧
      ((c.bytes.drop c.offset).take n).length = n) ∧
    (c.remaining < (a.length : Int) →
      c.setOrThrow a = .error (.writeLengthOverflow c.offset c.length a.length) ∧
      c.trySet a = .error (.writeLengthOverflow c.offset c.length a.length) ∧
      c.writeOrThrow a = .error (.writeLengthOverflow c.offset c.length a.length) ∧
      c.tryWrite a = .error (.writeLengthOverflow c.offset c.length a.length)) ∧
    ((a.length : Int) ≤ c.remaining →
      c.writeOrThrow a = .ok ⟨setBytes c.bytes c.offset a, c.offset + a.length⟩) ∧
    (a.length = n →
      Cursor.writeOrThrow ⟨List.replicate n 0, 0⟩ a
        = .ok ⟨setBytes (List.replicate n 0) 0 a, n⟩ ∧
      Cursor.readOrThrow ⟨List.replicate n 0, 0⟩ n
        = .ok (List.replicate n 0, ⟨List.replicate n 0, n⟩)) := by
  refine ⟨?_, ?_, ?_, ?_, ?_⟩
  · intro h
    refine ⟨?_, ?_, ?_, ?_⟩ <;>
      simp [Cursor.getOrThrow, Cursor.tryGet, Cursor.readOrThrow, Cursor.tryRead, h, Except.map]
  · intro h
    have hh : ¬ (c.remaining < (n : Int)) := not_lt.mpr h
    have hlen : c.offset + n ≤ c.bytes.length := by
      simp only [Cursor.remaining, Cursor.length] at h; omega
    refine ⟨?_, ?_, ?_⟩
    · simp [Cursor.getOrThrow, hh]
    · simp [Cursor.readOrThrow, Cursor.getOrThrow, hh]
      rfl
    · simp only [List.length_take, List.length_drop]
      omega
  · intro h
    refine ⟨?_, ?_, ?_, ?_⟩ <;>
      simp [Cursor.setOrThrow, Cursor.trySet, Cursor.writeOrThrow, Cursor.tryWrite, h, Except.map]
  · intro h
    have hh : ¬ (c.remaining < (a.length : Int)) := not_lt.mpr h
    simp [Cursor.writeOrThrow, Cursor.setOrThrow, hh]
    rfl
  · intro h
    subst h
    have hrem : ¬ ((⟨List.replicate a.length 0, 0⟩ : Cursor).remaining < (a.length : Int)) := by
      simp [Cursor.remaining, Cursor.length]
    constructor
    · unfold Cursor.writeOrThrow Cursor.setOrThrow
      rw [if_neg hrem]
      show Except.ok (⟨setBytes (List.replicate a.length 0) 0 a, 0 + a.length⟩ : Cursor) = _
      norm_num
    · unfold Cursor.readOrThrow Cursor.getOrThrow
      rw [if_neg (by simpa using hrem)]
      show Except.ok (((List.replicate a.length 0).drop 0).take a.length,
          (⟨List.replicate a.length 0, 0 + a.length⟩ : Cursor)) = _
      rw [List.drop_zero, List.take_of_length_le (by simp)]
      norm_num

/-- Witness for C4: a concrete failing read and a concrete fresh-buffer write. -/
theorem claim_C4_witness :
    Cursor.readOrThrow ⟨[1, 2, 3], 1⟩ 5
      = .error (.readLengthOverflow 1 3 5) ∧
    Cursor.writeOrThrow ⟨List.replicate 3 0, 0⟩ [4, 5, 6]
      = .ok ⟨setBytes (List.replicate 3 0) 0 [4, 5, 6], 3⟩ :=
  ⟨((claim_C4_length_checks ⟨[1, 2, 3], 1⟩ 5 []).1 (by decide)).2.2.1,
   ((claim_C4_length_checks ⟨[1, 2, 3], 1⟩ 3 [4, 5, 6]).2.2.2.2 rfl).1⟩

/-- Claim C5 (amended): with `remaining ≥ 3`, writing `2^24 - 1` and reading
it back yields `2^24 - 1` in both 24-bit implementations; but only the
`cursor.ts` implementation (backed by `Buffer.writeUIntBE/LE`) rejects a
value outside `[0, 2^24 - 1]` such as `2^24` with a write error — the
`mod.ts` implementation never fails and silently truncates every written
value to its low 24 bits. -/
theorem claim_C5_uint24_range (c : Cursor) (le : Bool) (h3 : (3 : Int) ≤ c.remaining) :
    (Cursor.writeUint24OrThrow c (2 ^ 24 - 1) le
        = some ⟨setBytes c.bytes c.offset
            (if le then encodeLE 3 (2 ^ 24 - 1) else encodeBE 3 (2 ^ 24 - 1)),
            c.offset + 3⟩ ∧
      Cursor.readUint24OrThrow
          ⟨setBytes c.bytes c.offset
            (if le then encodeLE 3 (2 ^ 24 - 1) else encodeBE 3 (2 ^ 24 - 1)), c.offset⟩ le
        = some (2 ^ 24 - 1, ⟨setBytes c.bytes c.offset
            (if le then encodeLE 3 (2 ^ 24 - 1) else encodeBE 3 (2 ^ 24 - 1)),
            c.offset + 3⟩)) ∧
    Cursor.setUint24OrThrow c (2 ^ 24) le = none ∧
    (∀ x : Nat,
      (Cursor.Mod.writeUint24OrThrow c x le).offset = c.offset + 3 ∧
      (Cursor.Mod.readUint24OrThrow
          ⟨(Cursor.Mod.writeUint24OrThrow c x le).bytes, c.offset⟩ le).1 = x % 2 ^ 24) := by
  have hk : c.offset + 3 ≤ c.bytes.length := by
    simp only [Cursor.remaining, Cursor.length] at h3; omega
  refine ⟨?_, ?_, ?_⟩
  · have hv3 : 2 ^ 24 - 1 < 256 ^ 3 := by norm_num
    obtain ⟨hwBE, hrBE, hwLE, hrLE⟩ := buffers_roundtrip c.bytes c.offset 3 (2 ^ 24 - 1) hv3 hk
    cases le with
    | false =>
      constructor
      · unfold Cursor.writeUint24OrThrow Cursor.setUint24OrThrow
        simp only [Bool.false_eq_true, if_false]
        rw [hwBE]
        rfl
      · show (Buffers.readUIntBE (setBytes c.bytes c.offset (encodeBE 3 (2 ^ 24 - 1)))
            c.offset 3).map (fun x => (x, (⟨setBytes c.bytes c.offset
              (encodeBE 3 (2 ^ 24 - 1)), c.offset + 3⟩ : Cursor))) = _
        rw [hrBE]
        rfl
    | true =>
      constructor
      · unfold Cursor.writeUint24OrThrow Cursor.setUint24OrThrow
        simp only [if_true]
        rw [hwLE]
        rfl
      · show (Buffers.readUIntLE (setBytes c.bytes c.offset (encodeLE 3 (2 ^ 24 - 1)))
            c.offset 3).map (fun x => (x, (⟨setBytes c.bytes c.offset
              (encodeLE 3 (2 ^ 24 - 1)), c.offset + 3⟩ : Cursor))) = _
        rw [hrLE]
        rfl
  · have hno : ¬ ((2 ^ 24 : Nat) < 256 ^ 3) := by norm_num
    cases le with
    | false =>
      unfold Cursor.setUint24OrThrow
      simp [Buffers.writeUIntBE, hno]
    | true =>
      unfold Cursor.setUint24OrThrow
      simp [Buffers.writeUIntLE, hno]
  · intro x
    refine ⟨rfl, ?_⟩
    show Cursor.Mod.getUint24OrThrow
        ⟨(Cursor.Mod.setUint24OrThrow c x le).bytes, c.offset⟩ le = x % 2 ^ 24
    rw [mod24_store_getD c x le hk]
    norm_num

/-- Claim C5 is refuted as stated: in the `mod.ts` implementation, writing
`2^24` with `writeUint24OrThrow` is not rejected — it succeeds, silently
storing the bytes of `2^24 % 2^24 = 0` over a 3-byte buffer, and reading
back yields `0` rather than signalling a write error. -/
theorem claim_C5_counterexample :
    Cursor.Mod.writeUint24OrThrow ⟨[9, 9, 9], 0⟩ (2 ^ 24) false = ⟨[0, 0, 0], 3⟩ ∧
    Cursor.Mod.readUint24OrThrow ⟨[0, 0, 0], 0⟩ false = (0, ⟨[0, 0, 0], 3⟩) := by
  decide

/-- Witness for C5 (amended) on a concrete 3-byte cursor. -/
theorem claim_C5_witness :
    Cursor.setUint24OrThrow ⟨[9, 9, 9], 0⟩ (2 ^ 24) false = none ∧
    (Cursor.Mod.readUint24OrThrow
        ⟨(Cursor.Mod.writeUint24OrThrow ⟨[9, 9, 9], 0⟩ (2 ^ 24) false).bytes, 0⟩ false).1
      = 2 ^ 24 % 2 ^ 24 :=
  ⟨(claim_C5_uint24_range ⟨[9, 9, 9], 0⟩ false (by decide)).2.1,
   ((claim_C5_uint24_range ⟨[9, 9, 9], 0⟩ false (by decide)).2.2 (2 ^ 24)).2⟩

/-- Claim C6: for chunk length `n > 0`, fully consuming
`splitOrThrow(n)` / `trySplit(n)` (embedded as the `splitStep`/`splitRun`
state machine, whose two generator bodies perform the same reads) yields
exactly the chunk sequence the spec describes — `⌊remaining / n⌋` full
chunks of `n` bytes in left-to-right buffer order followed by one short
chunk of `remaining % n` bytes exactly when `remaining % n ≠ 0` — and
leaves the cursor with `remaining = 0`. -/
theorem claim_C6_split (c : Cursor) (n : Nat) (hn : 0 < n) (hc : c.offset ≤ c.length) :
    Cursor.splitRun (c.length + 2) c n
      = some (specChunks (c.bytes.drop c.offset) n, ⟨c.bytes, c.length⟩) ∧
    (specChunks (c.bytes.drop c.offset) n).length
      = (c.length - c.offset) / n + (if (c.length - c.offset) % n = 0 then 0 else 1) ∧
    (specChunks (c.bytes.drop c.offset) n).map List.length
      = List.map (fun _ => n) (List.range ((c.length - c.offset) / n))
        ++ (if (c.length - c.offset) % n = 0 then []
            else [(c.length - c.offset) % n]) := by
  have hlen : (c.bytes.drop c.offset).length = c.length - c.offset := by
    simp [Cursor.length]
  refine ⟨?_, ?_, ?_⟩
  · exact splitRun_correct (c.bytes.length - c.offset) c n (c.length + 2) hn hc rfl
      (by simp [Cursor.length])
  · simp only [specChunks, hlen, List.length_append, List.length_map, List.length_range]
    split_ifs <;> simp
  · simp only [specChunks, hlen, List.map_append, List.map_map]
    congr 1
    · apply List.map_congr_left
      intro i hi
      rw [List.mem_range] at hi
      simp only [Function.comp_apply, List.length_take, List.length_drop, hlen]
      have hle : (i + 1) * n ≤ ((c.length - c.offset) / n) * n :=
        Nat.mul_le_mul_right n hi
      rw [Nat.succ_mul] at hle
      have hdm : ((c.length - c.offset) / n) * n ≤ c.length - c.offset :=
        Nat.div_mul_le_self _ n
      omega
    · split_ifs with hz
      · simp
      · simp only [List.map_cons, List.map_nil, List.length_drop, hlen]
        have hdm : ((c.length - c.offset) / n) * n + (c.length - c.offset) % n
            = c.length - c.offset := by
          rw [Nat.mul_comm]
          exact Nat.div_add_mod _ n
        congr 1
        omega

set_option maxRecDepth 4000 in
/-- Witness for C6: a 256-byte buffer split by 100 — the spec-side chunk
list has lengths `100, 100, 56`. -/
theorem claim_C6_witness :
    Cursor.splitRun ((⟨List.replicate 256 0, 0⟩ : Cursor).length + 2)
        ⟨List.replicate 256 0, 0⟩ 100
      = some (specChunks ((List.replicate 256 0).drop 0) 100,
          ⟨List.replicate 256 0, (⟨List.replicate 256 0, 0⟩ : Cursor).length⟩) ∧
    (specChunks ((List.replicate 256 0).drop 0) 100).map List.length
      = List.map (fun _ => 100) (List.range ((( ⟨List.replicate 256 0, 0⟩ : Cursor).length - 0) / 100))
        ++ (if ((⟨List.replicate 256 0, 0⟩ : Cursor).length - 0) % 100 = 0 then []
            else [((⟨List.replicate 256 0, 0⟩ : Cursor).length - 0) % 100]) :=
  ⟨(claim_C6_split ⟨List.replicate 256 0, 0⟩ 100 (by decide) (by decide)).1,
   (claim_C6_split ⟨List.replicate 256 0, 0⟩ 100 (by decide) (by decide)).2.2⟩

/-- Claim C7 (amended): for every chunk length `n ≥ 1` the split sequence is
finite — `c.length + 2` resumptions always complete it.  (As the
counterexample shows, the claim fails for `n = 0`, where the generator
yields empty chunks forever.) -/
theorem claim_C7_terminates (c : Cursor) (n : Nat) (hn : 0 < n) (hc : c.offset ≤ c.length) :
    Cursor.SplitTerminates c n := by
  refine ⟨c.length + 2, ?_⟩
  rw [splitRun_correct (c.bytes.length - c.offset) c n (c.length + 2) hn hc rfl
    (by simp [Cursor.length])]
  simp

/-- Claim C7 is refuted as stated for `n = 0`: on an empty cursor
(`remaining = 0`), every resumption of the split generator yields another
empty chunk without changing the state, so no amount of fuel finishes the
iteration. -/
theorem claim_C7_counterexample : ¬ Cursor.SplitTerminates ⟨[], 0⟩ 0 := by
  intro h
  obtain ⟨fuel, hf⟩ := h
  exact hf (splitRun_zero_none fuel)

/-- Witness for C7 (amended) on a concrete 2-byte cursor. -/
theorem claim_C7_witness : Cursor.SplitTerminates ⟨[1, 2], 0⟩ 1 :=
  claim_C7_terminates ⟨[1, 2], 0⟩ 1 (by decide) (by decide)

lemma fill_bytes_eq (c : Cursor) (v n : Nat) (h : c.offset + n ≤ c.bytes.length) :
    (c.fill v n).bytes = c.bytes.take c.offset ++ List.replicate n (v % 256)
      ++ c.bytes.drop (c.offset + n) := by
  unfold Cursor.fill
  rw [Nat.min_eq_left (show c.offset ≤ c.bytes.length by omega), Nat.min_eq_left h,
    show c.offset + n - c.offset = n from by omega]

/-- Claim C8: `fillOrThrow(value, n)` fails with a write-length-overflow
error exactly when `remaining < n`, and the bounds check precedes the fill,
so a failing call performs no mutation (in this embedding it returns only
the error); on success it sets the `n` bytes at `[offset, offset + n)` to
`value`, leaves every other byte and the buffer length unchanged, and
advances `offset` by `n`. -/
theorem claim_C8_fill (c : Cursor) (v n : Nat) :
    (c.remaining < (n : Int) →
      c.fillOrThrow v n = .error (.writeLengthOverflow c.offset c.length n)) ∧
    (∀ c', c.fillOrThrow v n = .ok c' →
      c'.offset = c.offset + n ∧
      c'.bytes.length = c.bytes.length ∧
      (∀ j, j < c.offset ∨ c.offset + n ≤ j → c'.bytes.getD j 0 = c.bytes.getD j 0) ∧
      (∀ j, c.offset ≤ j → j < c.offset + n → c'.bytes.getD j 0 = v % 256)) := by
  constructor
  · intro h
    unfold Cursor.fillOrThrow
    rw [if_pos h]
  · intro c' h
    unfold Cursor.fillOrThrow at h
    split at h
    · exact Except.noConfusion h
    · rename_i hrem
      simp only [Except.ok.injEq] at h
      subst h
      have hb : c.offset + n ≤ c.bytes.length := by
        simp only [Cursor.remaining, Cursor.length, not_lt] at hrem; omega
      have hfill := fill_bytes_eq c v n hb
      have htl : (c.bytes.take c.offset).length = c.offset := by simp; omega
      refine ⟨rfl, ?_, ?_, ?_⟩
      · rw [hfill]
        simp
        omega
      · intro j hj
        rw [hfill]
        simp only [List.getD, List.get?_eq_getElem?, getElem?_append3, htl,
          List.length_replicate]
        rcases hj with hj | hj
        · rw [if_pos hj]
          simp [List.getElem?_take, hj]
        · rw [if_neg (by omega), if_neg (by omega), List.getElem?_drop]
          congr 2
          omega
      · intro j hj1 hj2
        rw [hfill]
        simp only [List.getD, List.get?_eq_getElem?, getElem?_append3, htl,
          List.length_replicate]
        rw [if_neg (by omega), if_pos (by omega)]
        simp [List.getElem?_replicate, show j - c.offset < n from by omega]

/-- Witness for C8: the spec's own 5-byte example — offset 2, fill 2 bytes
with 1, giving `[0,0,1,1,0]` and offset 4. -/
theorem claim_C8_witness :
    Cursor.fillOrThrow ⟨List.replicate 5 0, 2⟩ 1 2 = .ok ⟨[0, 0, 1, 1, 0], 4⟩ ∧
    (⟨[0, 0, 1, 1, 0], 4⟩ : Cursor).offset = 2 + 2 ∧
    ([0, 0, 1, 1, 0] : List Nat).getD 2 0 = 1 % 256 := by
  have h : Cursor.fillOrThrow ⟨List.replicate 5 0, 2⟩ 1 2 = .ok ⟨[0, 0, 1, 1, 0], 4⟩ := rfl
  exact ⟨h, ((claim_C8_fill ⟨List.replicate 5 0, 2⟩ 1 2).2 ⟨[0, 0, 1, 1, 0], 4⟩ h).1,
    ((claim_C8_fill ⟨List.replicate 5 0, 2⟩ 1 2).2 ⟨[0, 0, 1, 1, 0], 4⟩ h).2.2.2 2
      (by decide) (by decide)⟩

/-- Claim C9: `setNulledOrThrow` / `trySetNulled` always restore `offset` to
its pre-call value, whether the underlying NUL-terminated write succeeded or
failed (`setNulledOrThrow` restores it in a `finally` block, `trySetNulled`
before returning the inner result). -/
theorem claim_C9_setNulled_offset (c : Cursor) (a : List Nat) :
    (Cursor.setNulledOrThrow c a).2.offset = c.offset ∧
    (Cursor.trySetNulled c a).2.offset = c.offset := by
  constructor
  · unfold Cursor.setNulledOrThrow
    cases hw : Cursor.writeNulledOrThrow c a with
    | ok c' => rfl
    | error e => rfl
  · rfl

/-- Claim C10: the 8-bit accessors are infallible — `tryGetUint8` /
`trySetUint8` always return `Ok` (their error type is `never`), and the
`OrThrow` forms never signal failure.  With `remaining = 0`,
`readUint8OrThrow` returns the out-of-bounds result (`undefined`, here
`none`) and still advances `offset` by 1, and `writeUint8OrThrow` stores
nothing while still advancing.  Consequently `writeNulledOrThrow` /
`tryWriteNulled` with `remaining` exactly the payload length report success
although the zero terminator is never stored: the buffer keeps its length
and holds only the payload, while `offset` ends at `length + 1`. -/
theorem claim_C10_uint8_infallible (c : Cursor) (x : Nat) (a : List Nat) :
    Cursor.tryGetUint8 c = .ok (c.bytes[c.offset]?) ∧
    (∀ e, Cursor.tryGetUint8 c ≠ .error e) ∧
    (∀ e, Cursor.trySetUint8 c x ≠ .error e) ∧
    (c.remaining = 0 → Cursor.readUint8OrThrow c = (none, ⟨c.bytes, c.offset + 1⟩)) ∧
    (c.remaining = 0 → Cursor.writeUint8OrThrow c x = ⟨c.bytes, c.offset + 1⟩) ∧
    (c.remaining = (a.length : Int) →
      Cursor.writeNulledOrThrow c a = .ok ⟨setBytes c.bytes c.offset a, c.length + 1⟩ ∧
      Cursor.tryWriteNulled c a = (.ok (), ⟨setBytes c.bytes c.offset a, c.length + 1⟩) ∧
      (setBytes c.bytes c.offset a).length = c.length) := by
  refine ⟨rfl, fun e h => Except.noConfusion h, fun e h => Except.noConfusion h, ?_, ?_, ?_⟩
  · intro h0
    have hoff : c.offset = c.bytes.length := by
      simp only [Cursor.remaining, Cursor.length] at h0; omega
    unfold Cursor.readUint8OrThrow Cursor.getUint8OrThrow
    rw [List.getElem?_eq_none (by omega)]
  · intro h0
    have hoff : ¬ (c.offset < c.bytes.length) := by
      simp only [Cursor.remaining, Cursor.length] at h0; omega
    unfold Cursor.writeUint8OrThrow Cursor.setUint8OrThrow storeByte
    rw [if_neg hoff]
  · intro hrem
    have hoff : c.offset + a.length = c.bytes.length := by
      simp only [Cursor.remaining, Cursor.length] at hrem; omega
    have hlen : (setBytes c.bytes c.offset a).length = c.bytes.length :=
      length_setBytes _ _ _ (by omega)
    have hw : Cursor.writeOrThrow c a = .ok ⟨setBytes c.bytes c.offset a, c.bytes.length⟩ := by
      unfold Cursor.writeOrThrow Cursor.setOrThrow
      rw [if_neg (by simp only [Cursor.remaining, Cursor.length]; omega)]
      show Except.ok (⟨setBytes c.bytes c.offset a, c.offset + a.length⟩ : Cursor) = _
      rw [hoff]
    have hstore : storeByte (setBytes c.bytes c.offset a) c.bytes.length 0
        = setBytes c.bytes c.offset a := by
      unfold storeByte
      rw [if_neg (by omega)]
    refine ⟨?_, ?_, hlen⟩
    · unfold Cursor.writeNulledOrThrow
      rw [hw]
      show Except.ok (Cursor.writeUint8OrThrow ⟨setBytes c.bytes c.offset a,
          c.bytes.length⟩ 0) = _
      unfold Cursor.writeUint8OrThrow Cursor.setUint8OrThrow
      show Except.ok (⟨storeByte (setBytes c.bytes c.offset a) c.bytes.length 0,
          c.bytes.length + 1⟩ : Cursor) = _
      rw [hstore]
      rfl
    · have htw : Cursor.tryWrite c a = .ok ⟨setBytes c.bytes c.offset a, c.bytes.length⟩ := by
        unfold Cursor.tryWrite Cursor.trySet
        rw [if_neg (by simp only [Cursor.remaining, Cursor.length]; omega)]
        show Except.ok (⟨setBytes c.bytes c.offset a, c.offset + a.length⟩ : Cursor) = _
        rw [hoff]
      unfold Cursor.tryWriteNulled
      rw [htw]
      show Cursor.tryWriteUint8 ⟨setBytes c.bytes c.offset a, c.bytes.length⟩ 0 = _
      unfold Cursor.tryWriteUint8 Cursor.writeUint8OrThrow Cursor.setUint8OrThrow
      show (Except.ok (), (⟨storeByte (setBytes c.bytes c.offset a) c.bytes.length 0,
          c.bytes.length + 1⟩ : Cursor)) = _
      rw [hstore]
      rfl

/-- Witness for C10: a cursor with `remaining = 0` for the 8-bit quirks, and
a 2-byte cursor whose remaining space exactly fits the payload `[1, 2]` for
the dropped-terminator behaviour. -/
theorem claim_C10_witness :
    Cursor.readUint8OrThrow ⟨[5], 1⟩ = (none, ⟨[5], 2⟩) ∧
    Cursor.writeUint8OrThrow ⟨[5], 1⟩ 7 = ⟨[5], 2⟩ ∧
    Cursor.writeNulledOrThrow ⟨[9, 9], 0⟩ [1, 2]
      = .ok ⟨setBytes [9, 9] 0 [1, 2], 3⟩ :=
  ⟨((claim_C10_uint8_infallible ⟨[5], 1⟩ 7 []).2.2.2.1 (by decide)),
   ((claim_C10_uint8_infallible ⟨[5], 1⟩ 7 []).2.2.2.2.1 (by decide)),
   ((claim_C10_uint8_infallible ⟨[9, 9], 0⟩ 7 [1, 2]).2.2.2.2.2 (by decide)).1⟩
